import Mathlib

/-!
Verification of the prover pool of `coordinator/proverspool.go` and of the
cancellation-error helpers of `common/converters.go`.

The Go pool is a buffered channel `pool chan prover.Client` of capacity
`maxServerProofs`.  `Add` is
`select { case p.pool <- serverProof: ; case <-ctx.Done(): }` and `Get` is
`select { case <-ctx.Done(): return nil, tracerr.Wrap(common.ErrDone)
; case serverProof := <-p.pool: return serverProof, nil }`.

Embedding choices, all taken from the Go semantics of a buffered channel and
of `select`:
* The channel contents are a FIFO list bounded by the capacity.
* A `select` executes atomically.  A case is ready when its communication can
  proceed; when several cases are ready the runtime picks one of them
  (uniform pseudo-random choice), which we expose as an explicit boolean
  `pickDone`; when no case is ready the goroutine blocks, which we model as
  the operation returning `none` (the transition is not enabled).
* `ctx.Done()` being ready is the boolean `fired` (the cancellation signal
  has fired; once fired it stays fired).
* Prover handles (`prover.Client` values) are opaque: an arbitrary type `H`
  with decidable equality.
* Go compares error values by identity, so the error constants built with
  `errors.New` are modelled as distinct constructors.
Concurrency is modelled as an interleaving of these atomic channel
operations, which is exactly the atomicity the Go runtime guarantees for
channel sends and receives.
-/

set_option autoImplicit false
set_option linter.unusedSectionVars false

/-- Model of the Go `error` values of this repository: `errDone` is the
constant `common.ErrDone = errors.New("done")` of `common/converters.go`
(used when a function returns earlier due to a cancelled context), `other`
stands for any other error value (distinguished by identity, as Go compares
error constants by pointer identity), and `traced` is an error wrapped by
the external `tracerr` library together with a stack trace. -/
inductive GoError where
  | errDone
  | other (tag : Nat)
  | traced (e : GoError)
  deriving DecidableEq, Repr

/-- The constant `common.ErrDone`. -/
def ErrDone : GoError := .errDone

/-- Model of the external library function `tracerr.Wrap`: a nil error stays
nil, an already traced error is returned as is, any other error is wrapped
together with a stack trace. -/
def tracerrWrap : Option GoError → Option GoError
  | none => none
  | some (.traced e) => some (.traced e)
  | some e => some (.traced e)

/-- Model of the external library function `tracerr.Unwrap`: returns the
error wrapped inside a traced error, and any other value unchanged. -/
def tracerrUnwrap : Option GoError → Option GoError
  | some (.traced e) => some e
  | e => e

/-- The helper `common.IsErrDone`: true iff the error or the error wrapped
with `tracerr` is `common.ErrDone`. -/
def IsErrDone (err : Option GoError) : Bool :=
  tracerrUnwrap err == some ErrDone

section Pool

variable {H : Type} [DecidableEq H]

/-- The Go struct `ProversPool { pool chan prover.Client }`: a buffered
channel, embedded as its fixed capacity together with its current FIFO
contents.  The field `pool` lists the buffered (available) handles, oldest
first. -/
structure ProversPool (H : Type) where
  cap : Nat
  pool : List H
  deriving DecidableEq, Repr

/-- `NewProversPool(maxServerProofs)` builds `make(chan prover.Client,
maxServerProofs)`.  In Go, `make` with a negative buffer size panics at run
time, which the embedding renders as `none`; otherwise the pool starts with
an empty buffer. -/
def NewProversPool (maxServerProofs : Int) : Option (ProversPool H) :=
  if maxServerProofs < 0 then none
  else some ⟨maxServerProofs.toNat, []⟩

/-- One atomic execution of `Add`'s `select`.  The send case is ready iff
the buffer has room; the `ctx.Done()` case is ready iff `fired`.  When both
are ready the runtime choice is `pickDone`; when neither is ready the call
blocks (`none`).  A completed `Add` returns no value at all in Go, so the
result is just the new pool state. -/
def ProversPool.Add (p : ProversPool H) (fired pickDone : Bool) (serverProof : H) :
    Option (ProversPool H) :=
  if p.pool.length < p.cap then
    if fired && pickDone then some p
    else some ⟨p.cap, p.pool ++ [serverProof]⟩
  else
    if fired then some p else none

/-- One atomic execution of `Get`'s `select`.  The receive case is ready iff
the buffer is nonempty; the `ctx.Done()` case is ready iff `fired`; when
both are ready the runtime choice is `pickDone`.  The cancelled case
returns `(nil, tracerr.Wrap(common.ErrDone))`; the receive case returns the
oldest buffered handle and a nil error.  (The `log.Info` call of the Go
code has no observable effect on the result and is not modelled.) -/
def ProversPool.Get (p : ProversPool H) (fired pickDone : Bool) :
    Option ((Option H × Option GoError) × ProversPool H) :=
  match p.pool with
  | [] =>
      if fired then some ((none, tracerrWrap (some ErrDone)), p) else none
  | hd :: tl =>
      if fired && pickDone then some ((none, tracerrWrap (some ErrDone)), p)
      else some ((some hd, none), ⟨p.cap, tl⟩)

/-- Global state of the interleaving model: the pool plus the multiset of
handles currently checked out by workers (delivered by a `Get` and not yet
re-`Add`ed). -/
structure PoolSys (H : Type) where
  pool : ProversPool H
  checkedOut : List H
  deriving DecidableEq, Repr

/-- The atomic operations workers can perform against the pool, at the
granularity at which the Go runtime serializes them. -/
inductive Op (H : Type) where
  | addOk (h : H)
  | addCancelled (h : H)
  | getOk
  | getCancelled
  | discard (h : H)
  deriving DecidableEq, Repr

/-- One interleaving step.  `addOk h` is an `Add` whose send case ran
(a release when `h` was checked out, a seed otherwise); `addCancelled` is an
`Add` whose `ctx.Done()` case ran; `getOk` is a `Get` that received a
handle, which becomes checked out; `getCancelled` is a `Get` whose
`ctx.Done()` case ran; `discard h` is the caller-level policy of dropping a
checked-out handle permanently.  `none` means the operation is not enabled
(the goroutine would block). -/
def PoolSys.step (s : PoolSys H) : Op H → Option (PoolSys H)
  | .addOk h => (s.pool.Add false false h).map (fun p => ⟨p, s.checkedOut.erase h⟩)
  | .addCancelled h => (s.pool.Add true true h).map (fun p => ⟨p, s.checkedOut⟩)
  | .getOk => (s.pool.Get false false).map (fun r => ⟨r.2, s.checkedOut ++ r.1.1.toList⟩)
  | .getCancelled => (s.pool.Get true true).map (fun r => ⟨r.2, s.checkedOut⟩)
  | .discard h => if h ∈ s.checkedOut then some ⟨s.pool, s.checkedOut.erase h⟩ else none

/-- Run a sequence of interleaved operations; `none` as soon as one of them
is not enabled. -/
def PoolSys.run (s : PoolSys H) : List (Op H) → Option (PoolSys H)
  | [] => some s
  | op :: ops => (s.step op).bind (fun s' => s'.run ops)

/-- The usage discipline of the spec for a single operation: an `Add` is
either the release of a checked-out handle or the seeding of a fresh handle,
so the added handle is never one already sitting in the buffer.  All other
operations are unrestricted. -/
def PoolSys.legalStep (s : PoolSys H) : Op H → Bool
  | .addOk h => decide (h ∉ s.pool.pool)
  | _ => true

/-- Run a sequence of operations, requiring every step to be enabled and to
respect the usage discipline `legalStep`. -/
def PoolSys.legalRun (s : PoolSys H) : List (Op H) → Option (PoolSys H)
  | [] => some s
  | op :: ops =>
      if s.legalStep op then (s.step op).bind (fun s' => s'.legalRun ops) else none

/-- Mutual-exclusivity invariant: no handle occurs twice among the buffered
handles together with the checked-out handles. -/
def PoolSys.inv (s : PoolSys H) : Prop :=
  (s.pool.pool ++ s.checkedOut).Nodup

instance (s : PoolSys H) : Decidable s.inv := by
  unfold PoolSys.inv; infer_instance

/-- Resident-count change of one operation: a seed (add of a handle that is
not checked out) adds one resident handle, a discard removes one, every
other operation moves handles around without changing the total. -/
def Op.residentDelta (s : PoolSys H) : Op H → Int
  | .addOk h => if h ∈ s.checkedOut then 0 else 1
  | .discard _ => -1
  | _ => 0

/-- Sequential seeding: perform the send case of `Add` (no cancellation) for
each handle in order. -/
def addSeq (p : ProversPool H) : List H → Option (ProversPool H)
  | [] => some p
  | h :: hs => (p.Add false false h).bind (fun p' => addSeq p' hs)

/-- Sequential draining: perform the receive case of `Get` (no cancellation)
`n` times, collecting the delivered handles in order. -/
def getSeq (p : ProversPool H) : Nat → Option (List H × ProversPool H)
  | 0 => some ([], p)
  | n + 1 =>
      (p.Get false false).bind (fun r =>
        match r.1.1 with
        | some h => (getSeq r.2 n).map (fun q => (h :: q.1, q.2))
        | none => none)

end Pool

section PoolLemmas

variable {H : Type} [DecidableEq H]

/-- Elimination principle for a completed `Get`: the result is either the
cancelled outcome with the pool untouched, or the oldest buffered handle
with a nil error and that handle removed. -/
lemma ProversPool.get_elim (p : ProversPool H) (fired pd : Bool)
    (r : Option H × Option GoError) (p' : ProversPool H)
    (hg : p.Get fired pd = some (r, p')) :
    (r = (none, some (GoError.traced ErrDone)) ∧ p' = p ∧ fired = true) ∨
    (∃ hd tl, p.pool = hd :: tl ∧ r = (some hd, none) ∧ p' = ⟨p.cap, tl⟩) := by
  obtain ⟨cap, buf⟩ := p
  cases buf <;> cases fired <;> cases pd <;>
    simp_all [ProversPool.Get, tracerrWrap, ErrDone] <;> tauto

/-- An `Add` whose `ctx.Done()` case is both ready and chosen completes
without changing the pool. -/
lemma ProversPool.add_cancel_eq (p : ProversPool H) (hdl : H) :
    p.Add true true hdl = some p := by
  unfold ProversPool.Add
  split <;> simp

/-- Elimination principle for a completed `Add`: either nothing changed
(the `ctx.Done()` case ran) or the handle was appended to the buffer. -/
lemma ProversPool.add_elim (p : ProversPool H) (fired pd : Bool) (hdl : H)
    (p' : ProversPool H) (ha : p.Add fired pd hdl = some p') :
    p' = p ∨ p' = ⟨p.cap, p.pool ++ [hdl]⟩ := by
  unfold ProversPool.Add at ha
  split at ha <;> split at ha <;> simp_all

end PoolLemmas

section ClaimTheorems

variable {H : Type} [DecidableEq H]

/-- Claim C4: cancellation is atomic with respect to pool state.  A `Get`
that returns an error returns no handle and leaves the pool exactly as it
was; an `Add` interrupted by the signal leaves the pool unchanged (the
handle was not inserted) and returns control to the caller; and `Add`
produces no error value at all: its only outcomes are blocking, returning
with the pool unchanged, or returning with the handle appended. -/
theorem c4_cancellation_atomicity (p : ProversPool H) (fired pd : Bool) (hdl : H) :
    (∀ oh e p', p.Get fired pd = some ((oh, some e), p') → oh = none ∧ p' = p) ∧
    (p.Add true true hdl = some p) ∧
    (p.Add fired pd hdl = none ∨ p.Add fired pd hdl = some p ∨
      p.Add fired pd hdl = some ⟨p.cap, p.pool ++ [hdl]⟩) := by
  refine ⟨?_, p.add_cancel_eq hdl, ?_⟩
  · intro oh e p' hg
    rcases p.get_elim fired pd (oh, some e) p' hg with ⟨hr, hp, _⟩ | ⟨hd, tl, _, hr, _⟩
    · exact ⟨(Prod.mk.injEq _ _ _ _ ▸ hr).1, hp⟩
    · simp at hr
  · rcases ha : p.Add fired pd hdl with _ | p'
    · exact Or.inl rfl
    · rcases p.add_elim fired pd hdl p' ha with h | h
      · exact Or.inr (Or.inl (by rw [h]))
      · exact Or.inr (Or.inr (by rw [h]))

/-- Claim C6: the only error the pool ever produces is the cancellation
error.  Every non-nil error returned by `Get` is `tracerr`-wrapped
`common.ErrDone`, so it satisfies the caller-side recognizer
`common.IsErrDone`. -/
theorem c6_only_error_is_errdone (p : ProversPool H) (fired pd : Bool)
    (oh : Option H) (e : GoError) (p' : ProversPool H)
    (hg : p.Get fired pd = some ((oh, some e), p')) :
    IsErrDone (some e) = true := by
  rcases p.get_elim fired pd (oh, some e) p' hg with ⟨hr, _, _⟩ | ⟨hd, tl, _, hr, _⟩
  · have he : e = GoError.traced ErrDone := by
      have := (Prod.mk.injEq _ _ _ _ ▸ hr).2
      exact Option.some.inj this
    rw [he]; rfl
  · simp at hr

/-- Claim C9: every completed `Get` returns exactly one meaningful result:
either a handle and a nil error, or no handle and a non-nil error; never
both and never neither. -/
theorem c9_exclusive_result (p : ProversPool H) (fired pd : Bool)
    (oh : Option H) (oe : Option GoError) (p' : ProversPool H)
    (hg : p.Get fired pd = some ((oh, oe), p')) :
    (oe = none ∧ ∃ h, oh = some h) ∨ (oh = none ∧ ∃ e, oe = some e) := by
  rcases p.get_elim fired pd (oh, oe) p' hg with ⟨hr, _, _⟩ | ⟨hd, tl, _, hr, _⟩
  · have := Prod.mk.injEq _ _ _ _ ▸ hr
    exact Or.inr ⟨this.1, GoError.traced ErrDone, this.2⟩
  · have := Prod.mk.injEq _ _ _ _ ▸ hr
    exact Or.inl ⟨this.2, hd, this.1⟩

/-- Claim C10: `NewProversPool` with a negative capacity does not return a
pool (Go's `make` panics on a negative buffer size), and with a capacity
that is not negative it returns a pool whose available set is empty. -/
theorem c10_new_pool (n : Int) :
    (n < 0 → (NewProversPool n : Option (ProversPool H)) = none) ∧
    (0 ≤ n → (NewProversPool n : Option (ProversPool H)) = some ⟨n.toNat, []⟩) := by
  constructor
  · intro h; simp [NewProversPool, h]
  · intro h; simp [NewProversPool, not_lt.mpr h]

end ClaimTheorems

/-- Claim C3 is false as stated: here a handle (7) is available in the
buffer, yet `Get` under a fired signal can take the `ctx.Done()` case of
the `select` and return no handle together with the cancellation error,
instead of returning the available handle with a nil error. -/
theorem c3_get_counterexample :
    (⟨1, [7]⟩ : ProversPool Nat).pool ≠ [] ∧
    (⟨1, [7]⟩ : ProversPool Nat).Get true true
      = some ((none, some (GoError.traced ErrDone)), ⟨1, [7]⟩) := by
  decide

section C3C5

variable {H : Type} [DecidableEq H]

/-- Claim C3, amended: if a handle is available and the signal has not
fired, `Get` returns the oldest handle immediately with a nil error and
removes it from the buffer; if none is available, `Get` blocks while the
signal has not fired and returns the cancellation outcome once it has; and
if a handle is available while the signal has fired, the `select` picks one
of the two ready cases (runtime choice), so `Get` may return either the
handle or the cancellation outcome. -/
theorem c3_get_semantics (p : ProversPool H) (pd : Bool) :
    (∀ hd tl, p.pool = hd :: tl →
      p.Get false pd = some ((some hd, none), ⟨p.cap, tl⟩)) ∧
    (p.pool = [] → p.Get false pd = none) ∧
    (p.pool = [] →
      p.Get true pd = some ((none, some (GoError.traced ErrDone)), p)) ∧
    (∀ hd tl, p.pool = hd :: tl →
      p.Get true true = some ((none, some (GoError.traced ErrDone)), p) ∧
      p.Get true false = some ((some hd, none), ⟨p.cap, tl⟩)) := by
  obtain ⟨cap, buf⟩ := p
  refine ⟨?_, ?_, ?_, ?_⟩
  · intro hd tl hb
    cases hb
    simp [ProversPool.Get]
  · intro hb; cases hb; simp [ProversPool.Get]
  · intro hb; cases hb; simp [ProversPool.Get, tracerrWrap, ErrDone]
  · intro hd tl hb
    cases hb
    exact ⟨by simp [ProversPool.Get, tracerrWrap, ErrDone],
           by simp [ProversPool.Get]⟩

/-- Claim C5, amended: once the signal has fired, neither `Get` nor `Add`
can block; when the operation's channel case is not ready (empty buffer for
`Get`, full buffer for `Add`) or the runtime picks the `ctx.Done()` case,
the outcome is the cancellation outcome with no state change; but when the
channel case is also ready the runtime may pick it instead, so the
operation may complete normally. -/
theorem c5_fired_no_blocking (p : ProversPool H) (pd : Bool) (hdl : H) :
    (p.Get true pd).isSome ∧ (p.Add true pd hdl).isSome ∧
    (p.pool = [] →
      p.Get true pd = some ((none, some (GoError.traced ErrDone)), p)) ∧
    (p.cap ≤ p.pool.length → p.Add true pd hdl = some p) ∧
    p.Get true true = some ((none, some (GoError.traced ErrDone)), p) ∧
    p.Add true true hdl = some p := by
  obtain ⟨cap, buf⟩ := p
  refine ⟨?_, ?_, ?_, ?_, ?_, ProversPool.add_cancel_eq _ _⟩
  · cases buf <;> cases pd <;> simp [ProversPool.Get, tracerrWrap, ErrDone]
  · unfold ProversPool.Add
    split <;> cases pd <;> simp
  · intro hb; cases hb; simp [ProversPool.Get, tracerrWrap, ErrDone]
  · intro hlen
    unfold ProversPool.Add
    rw [if_neg (by omega)]
    simp
  · cases buf <;> simp [ProversPool.Get, tracerrWrap, ErrDone]

end C3C5

/-- Claim C5 is false as stated: against an already-fired signal, a `Get`
on a nonempty pool may still deliver the handle (the receive case of the
`select` is also ready and the runtime may pick it), and an `Add` on a
non-full pool may still insert the handle, instead of returning the
cancellation outcome. -/
theorem c5_fired_counterexample :
    (⟨1, [7]⟩ : ProversPool Nat).Get true false = some ((some 7, none), ⟨1, []⟩) ∧
    IsErrDone none = false ∧
    (⟨1, []⟩ : ProversPool Nat).Add true false 3 = some ⟨1, [3]⟩ := by
  decide

section TraceLemmas

variable {H : Type} [DecidableEq H]

lemma nodup_after_add (pool out : List H) (h : H)
    (hnd : (pool ++ out).Nodup) (hm : h ∉ pool) :
    ((pool ++ [h]) ++ out.erase h).Nodup := by
  rw [List.append_assoc, List.singleton_append]
  rw [List.nodup_append] at hnd ⊢
  obtain ⟨h1, h2, h3⟩ := hnd
  refine ⟨h1, ?_, ?_⟩
  · rw [List.nodup_cons]
    exact ⟨fun hc => (h2.mem_erase_iff.mp hc).1 rfl, h2.erase h⟩
  · intro a ha hb
    rcases List.mem_cons.mp hb with rfl | hb'
    · exact hm ha
    · exact h3 ha (List.mem_of_mem_erase hb')

lemma nodup_after_get (hd : H) (tl out : List H)
    (hnd : ((hd :: tl) ++ out).Nodup) : (tl ++ (out ++ [hd])).Nodup := by
  have hp : (hd :: (tl ++ out)).Perm ((tl ++ out) ++ [hd]) :=
    (List.perm_append_singleton hd (tl ++ out)).symm
  have := hp.nodup (by simpa using hnd)
  simpa [List.append_assoc] using this

lemma nodup_after_discard (pool out : List H) (h : H)
    (hnd : (pool ++ out).Nodup) : (pool ++ out.erase h).Nodup :=
  hnd.sublist ((List.erase_sublist h out).append_left pool)

lemma PoolSys.step_inv (s : PoolSys H) (op : Op H) (s' : PoolSys H)
    (hstep : s.step op = some s') (hleg : s.legalStep op = true)
    (hinv : s.inv) : s'.inv := by
  obtain ⟨⟨cap, buf⟩, out⟩ := s
  cases op with
  | addOk h =>
      have hm : h ∉ buf := of_decide_eq_true hleg
      simp only [PoolSys.step, ProversPool.Add] at hstep
      simp only [Bool.and_self, Bool.false_and, if_false, ite_false] at hstep
      by_cases hlt : buf.length < cap
      · rw [if_pos hlt] at hstep
        simp at hstep
        rw [← hstep]
        exact nodup_after_add buf out h hinv hm
      · rw [if_neg hlt] at hstep
        simp at hstep
  | addCancelled h =>
      simp only [PoolSys.step, ProversPool.add_cancel_eq] at hstep
      simp at hstep
      rw [← hstep]
      exact hinv
  | getOk =>
      cases buf with
      | nil => simp [PoolSys.step, ProversPool.Get] at hstep
      | cons hd tl =>
          simp only [PoolSys.step, ProversPool.Get] at hstep
          simp at hstep
          rw [← hstep]
          exact nodup_after_get hd tl out hinv
  | getCancelled =>
      cases buf <;>
        · simp only [PoolSys.step, ProversPool.Get] at hstep
          simp at hstep
          rw [← hstep]
          exact hinv
  | discard h =>
      simp only [PoolSys.step] at hstep
      split at hstep
      · simp at hstep
        rw [← hstep]
        exact nodup_after_discard buf out h hinv
      · simp at hstep

/-- Claim C1: mutual exclusivity.  Along every interleaved sequence of
`Get`, `Add`/release, cancellation and discard operations that respects the
usage discipline (an `Add` never re-inserts a handle currently sitting in
the buffer, which holds both for seeding fresh handles and for releasing
checked-out ones), if the pool starts with no duplicated handle then at
every instant no handle is held twice: the buffered and checked-out handles
together remain duplicate-free, so no handle is delivered to two `Get`
callers without an intervening return. -/
theorem c1_mutual_exclusivity (ops : List (Op H)) (s s' : PoolSys H)
    (hrun : s.legalRun ops = some s') (hinv : s.inv) : s'.inv := by
  induction ops generalizing s with
  | nil =>
      simp only [PoolSys.legalRun] at hrun
      cases hrun
      exact hinv
  | cons op ops ih =>
      unfold PoolSys.legalRun at hrun
      split at hrun
      · obtain ⟨s₁, hstep, hrest⟩ := Option.bind_eq_some.mp hrun
        exact ih s₁ hrest (PoolSys.step_inv s op s₁ hstep (by assumption) hinv)
      · exact absurd hrun (by simp)

end TraceLemmas

section MoreTrace

variable {H : Type} [DecidableEq H]

lemma PoolSys.step_bound (s : PoolSys H) (op : Op H) (s' : PoolSys H)
    (hstep : s.step op = some s') :
    (s.pool.pool.length ≤ s.pool.cap → s'.pool.pool.length ≤ s'.pool.cap) ∧
    s'.pool.cap = s.pool.cap := by
  obtain ⟨⟨cap, buf⟩, out⟩ := s
  cases op with
  | addOk h =>
      simp only [PoolSys.step, ProversPool.Add] at hstep
      simp only [Bool.false_and, ite_false] at hstep
      by_cases hlt : buf.length < cap
      · rw [if_pos hlt] at hstep
        simp at hstep
        rw [← hstep]
        refine ⟨fun _ => ?_, rfl⟩
        simp
        omega
      · rw [if_neg hlt] at hstep
        simp at hstep
  | addCancelled h =>
      simp only [PoolSys.step, ProversPool.add_cancel_eq] at hstep
      simp at hstep
      rw [← hstep]
      simp
  | getOk =>
      cases buf with
      | nil => simp [PoolSys.step, ProversPool.Get] at hstep
      | cons hd tl =>
          simp only [PoolSys.step, ProversPool.Get] at hstep
          simp at hstep
          rw [← hstep]
          simp
          omega
  | getCancelled =>
      cases buf <;>
        · simp only [PoolSys.step, ProversPool.Get] at hstep
          simp at hstep
          rw [← hstep]
          simp
  | discard h =>
      simp only [PoolSys.step] at hstep
      split at hstep
      · simp at hstep
        rw [← hstep]
        simp
      · simp at hstep

/-- Claim C8: the number of handles in the pool's available buffer never
exceeds the capacity fixed at construction, and no operation changes that
capacity: both facts are preserved along every interleaved sequence of
operations. -/
theorem c8_capacity_bound (ops : List (Op H)) (s s' : PoolSys H)
    (hrun : s.run ops = some s') (hb : s.pool.pool.length ≤ s.pool.cap) :
    s'.pool.pool.length ≤ s'.pool.cap ∧ s'.pool.cap = s.pool.cap := by
  induction ops generalizing s with
  | nil =>
      simp only [PoolSys.run] at hrun
      cases hrun
      exact ⟨hb, rfl⟩
  | cons op ops ih =>
      unfold PoolSys.run at hrun
      obtain ⟨s₁, hstep, hrest⟩ := Option.bind_eq_some.mp hrun
      obtain ⟨hmono, hcap⟩ := PoolSys.step_bound s op s₁ hstep
      obtain ⟨hb', hcap'⟩ := ih s₁ hrest (hmono hb)
      exact ⟨hb', hcap ▸ hcap'⟩

/-- Claim C2, amended: conservation holds per operation (the resident
total, available plus checked out, changes by exactly one for an add of a
non-checked-out handle, by minus one for a caller discard, and is unchanged
otherwise), and `Add`'s send case is enabled exactly when fewer than
`capacity` handles are available in the buffer: checked-out handles are not
counted, so the resident total is not bounded by the capacity. -/
theorem c2_resident_conservation (s : PoolSys H) (op : Op H) (s' : PoolSys H)
    (hstep : s.step op = some s') :
    ((s'.pool.pool.length : Int) + s'.checkedOut.length
       = s.pool.pool.length + s.checkedOut.length + op.residentDelta s) ∧
    (∀ hdl : H, (s.step (Op.addOk hdl)).isSome ↔ s.pool.pool.length < s.pool.cap) := by
  obtain ⟨⟨cap, buf⟩, out⟩ := s
  constructor
  · cases op with
    | addOk h =>
        simp only [PoolSys.step, ProversPool.Add] at hstep
        simp only [Bool.false_and, ite_false] at hstep
        by_cases hlt : buf.length < cap
        · rw [if_pos hlt] at hstep
          simp at hstep
          rw [← hstep]
          by_cases hm : h ∈ out
          · have hl : (out.erase h).length = out.length - 1 :=
              List.length_erase_of_mem hm
            have hpos : 0 < out.length := List.length_pos.mpr (List.ne_nil_of_mem hm)
            simp [Op.residentDelta, hm, hl]
            omega
          · rw [List.erase_of_not_mem hm]
            simp [Op.residentDelta, hm]
            omega
        · rw [if_neg hlt] at hstep
          simp at hstep
    | addCancelled h =>
        simp only [PoolSys.step, ProversPool.add_cancel_eq] at hstep
        simp at hstep
        rw [← hstep]
        simp [Op.residentDelta]
    | getOk =>
        cases buf with
        | nil => simp [PoolSys.step, ProversPool.Get] at hstep
        | cons hd tl =>
            simp only [PoolSys.step, ProversPool.Get] at hstep
            simp at hstep
            rw [← hstep]
            simp [Op.residentDelta]
            omega
    | getCancelled =>
        cases buf <;>
          · simp only [PoolSys.step, ProversPool.Get] at hstep
            simp at hstep
            rw [← hstep]
            simp [Op.residentDelta]
    | discard h =>
        simp only [PoolSys.step] at hstep
        split at hstep
        · simp at hstep
          rw [← hstep]
          have hm : h ∈ out := by assumption
          have hl : (out.erase h).length = out.length - 1 :=
            List.length_erase_of_mem hm
          have hpos : 0 < out.length := List.length_pos.mpr (List.ne_nil_of_mem hm)
          simp [Op.residentDelta, hl]
          omega
        · simp at hstep
  · intro hdl
    simp only [PoolSys.step, ProversPool.Add]
    simp only [Bool.false_and, ite_false]
    by_cases hlt : buf.length < cap
    · rw [if_pos hlt]
      simpa using hlt
    · rw [if_neg hlt]
      simpa using hlt

end MoreTrace

/-- Claim C2 is false as stated: on a pool of capacity 1, after adding a
handle and checking it out, a second `Add` completes immediately (the
buffer is empty again) even though one handle is already resident, leaving
two resident handles on a capacity-1 pool.  The claim's bound
available + checked-out ≤ N and its blocking condition both fail. -/
theorem c2_resident_counterexample :
    PoolSys.run (⟨⟨1, []⟩, []⟩ : PoolSys Nat) [.addOk 1, .getOk, .addOk 2]
      = some ⟨⟨1, [2]⟩, [1]⟩ ∧
    (⟨⟨1, [2]⟩, [1]⟩ : PoolSys Nat).pool.pool.length
      + (⟨⟨1, [2]⟩, [1]⟩ : PoolSys Nat).checkedOut.length
      > (⟨⟨1, [2]⟩, [1]⟩ : PoolSys Nat).pool.cap := by
  decide

section Fifo

variable {H : Type} [DecidableEq H]

lemma addSeq_eq (hs : List H) : ∀ p : ProversPool H,
    p.pool.length + hs.length ≤ p.cap →
    addSeq p hs = some ⟨p.cap, p.pool ++ hs⟩ := by
  induction hs with
  | nil => intro p _; simp [addSeq]
  | cons hd tl ih =>
      intro p hlen
      have hlen' : p.pool.length + (tl.length + 1) ≤ p.cap := by simpa using hlen
      have hlt : p.pool.length < p.cap := by omega
      unfold addSeq ProversPool.Add
      rw [if_pos hlt, if_neg (by decide : ¬((false && (false : Bool)) = true)),
        Option.some_bind, ih ⟨p.cap, p.pool ++ [hd]⟩ (by simp; omega)]
      simp

lemma getSeq_eq (buf : List H) : ∀ cap : Nat,
    getSeq (⟨cap, buf⟩ : ProversPool H) buf.length = some (buf, ⟨cap, []⟩) := by
  induction buf with
  | nil => intro cap; simp [getSeq]
  | cons hd tl ih =>
      intro cap
      show getSeq _ (tl.length + 1) = _
      unfold getSeq ProversPool.Get
      simp only [if_neg (by decide : ¬((false && (false : Bool)) = true)), Option.some_bind]
      show Option.map _ (getSeq (⟨cap, tl⟩ : ProversPool H) tl.length) = _
      rw [ih cap]
      rfl

/-- Claim C7: in the sequential, uncancelled case the pool is a FIFO
queue.  For every capacity N and every list of k ≤ N handles, seeding a
fresh pool with the handles in order and then performing k `Get`s returns
exactly those handles in the order they were added, leaving the pool
empty. -/
theorem c7_fifo_order (N : Nat) (hs : List H) (hlen : hs.length ≤ N) :
    NewProversPool (Int.ofNat N) = some (⟨N, []⟩ : ProversPool H) ∧
    addSeq (⟨N, []⟩ : ProversPool H) hs = some ⟨N, hs⟩ ∧
    getSeq (⟨N, hs⟩ : ProversPool H) hs.length = some (hs, ⟨N, []⟩) := by
  refine ⟨?_, ?_, getSeq_eq hs N⟩
  · simp [NewProversPool]
  · have := addSeq_eq hs (⟨N, []⟩ : ProversPool H) (by simpa using hlen)
    simpa using this

end Fifo

/-- Witness for C1: a concrete legal interleaving on a capacity-2 pool,
with the invariant checked at both ends. -/
theorem c1_mutual_exclusivity_witness :
    PoolSys.legalRun (⟨⟨2, [1, 2]⟩, []⟩ : PoolSys Nat) [.getOk, .addOk 3, .getOk, .addOk 1]
      = some ⟨⟨2, [3, 1]⟩, [2]⟩ ∧
    (⟨⟨2, [1, 2]⟩, []⟩ : PoolSys Nat).inv ∧
    (⟨⟨2, [3, 1]⟩, [2]⟩ : PoolSys Nat).inv :=
  ⟨by decide, by decide,
    c1_mutual_exclusivity [.getOk, .addOk 3, .getOk, .addOk 1]
      ⟨⟨2, [1, 2]⟩, []⟩ ⟨⟨2, [3, 1]⟩, [2]⟩ (by decide) (by decide)⟩

/-- Witness for the amended C2 at a concrete step: a seed of handle 7 into
an empty buffer while handle 5 is checked out. -/
theorem c2_resident_conservation_witness :
    PoolSys.step (⟨⟨1, []⟩, [5]⟩ : PoolSys Nat) (.addOk 7) = some ⟨⟨1, [7]⟩, [5]⟩ ∧
    ((((⟨⟨1, [7]⟩, [5]⟩ : PoolSys Nat).pool.pool.length : Int)
          + (⟨⟨1, [7]⟩, [5]⟩ : PoolSys Nat).checkedOut.length
        = (⟨⟨1, []⟩, [5]⟩ : PoolSys Nat).pool.pool.length
          + (⟨⟨1, []⟩, [5]⟩ : PoolSys Nat).checkedOut.length
          + (Op.addOk 7).residentDelta (⟨⟨1, []⟩, [5]⟩ : PoolSys Nat)) ∧
      (∀ hdl : Nat,
        (PoolSys.step (⟨⟨1, []⟩, [5]⟩ : PoolSys Nat) (Op.addOk hdl)).isSome ↔
          (⟨⟨1, []⟩, [5]⟩ : PoolSys Nat).pool.pool.length
            < (⟨⟨1, []⟩, [5]⟩ : PoolSys Nat).pool.cap)) :=
  ⟨by decide,
    c2_resident_conservation ⟨⟨1, []⟩, [5]⟩ (.addOk 7) ⟨⟨1, [7]⟩, [5]⟩ (by decide)⟩

/-- Witness for the amended C3: a delivery from a nonempty buffer with no
signal, and a cancellation on an empty buffer. -/
theorem c3_get_semantics_witness :
    ((⟨1, [7]⟩ : ProversPool Nat).pool = 7 :: [] ∧
      (⟨1, [7]⟩ : ProversPool Nat).Get false false = some ((some 7, none), ⟨1, []⟩)) ∧
    ((⟨1, []⟩ : ProversPool Nat).pool = [] ∧
      (⟨1, []⟩ : ProversPool Nat).Get true false
        = some ((none, some (GoError.traced ErrDone)), ⟨1, []⟩)) :=
  ⟨⟨rfl, (c3_get_semantics (⟨1, [7]⟩ : ProversPool Nat) false).1 7 [] rfl⟩,
   ⟨rfl, (c3_get_semantics (⟨1, []⟩ : ProversPool Nat) false).2.2.1 rfl⟩⟩

/-- Witness for C4: a cancelled `Get` and a cancelled `Add` on a concrete
pool, both leaving it unchanged. -/
theorem c4_cancellation_atomicity_witness :
    ((⟨1, []⟩ : ProversPool Nat).Get true true
        = some ((none, some (GoError.traced ErrDone)), ⟨1, []⟩) ∧
      ((none : Option Nat) = none ∧ (⟨1, []⟩ : ProversPool Nat) = ⟨1, []⟩)) ∧
    (⟨1, []⟩ : ProversPool Nat).Add true true 4 = some ⟨1, []⟩ :=
  ⟨⟨by decide,
    (c4_cancellation_atomicity (⟨1, []⟩ : ProversPool Nat) true true 4).1
      none (GoError.traced ErrDone) ⟨1, []⟩ (by decide)⟩,
   (c4_cancellation_atomicity (⟨1, []⟩ : ProversPool Nat) true true 4).2.1⟩

/-- Witness for the amended C5: with the signal fired, `Get` on an empty
pool returns the cancellation outcome and `Add` on a full pool returns with
no insertion; neither blocks. -/
theorem c5_fired_no_blocking_witness :
    ((⟨1, []⟩ : ProversPool Nat).Get true false).isSome = true ∧
    ((⟨1, []⟩ : ProversPool Nat).pool = [] ∧
      (⟨1, []⟩ : ProversPool Nat).Get true false
        = some ((none, some (GoError.traced ErrDone)), ⟨1, []⟩)) ∧
    ((⟨1, [9]⟩ : ProversPool Nat).cap ≤ (⟨1, [9]⟩ : ProversPool Nat).pool.length ∧
      (⟨1, [9]⟩ : ProversPool Nat).Add true false 4 = some ⟨1, [9]⟩) :=
  ⟨(c5_fired_no_blocking (⟨1, []⟩ : ProversPool Nat) false 4).1,
   ⟨rfl, (c5_fired_no_blocking (⟨1, []⟩ : ProversPool Nat) false 4).2.2.1 rfl⟩,
   ⟨by decide, (c5_fired_no_blocking (⟨1, [9]⟩ : ProversPool Nat) false 4).2.2.2.1 (by decide)⟩⟩

/-- Witness for C6: the error produced by a concrete cancelled `Get`
satisfies `IsErrDone`. -/
theorem c6_only_error_is_errdone_witness :
    (⟨1, []⟩ : ProversPool Nat).Get true false
      = some ((none, some (GoError.traced ErrDone)), ⟨1, []⟩) ∧
    IsErrDone (some (GoError.traced ErrDone)) = true :=
  ⟨by decide,
    c6_only_error_is_errdone (⟨1, []⟩ : ProversPool Nat) true false none
      (GoError.traced ErrDone) ⟨1, []⟩ (by decide)⟩

/-- Witness for C7: three handles seeded into a capacity-3 pool come back
in their insertion order. -/
theorem c7_fifo_order_witness :
    ([4, 5, 6].length ≤ 3) ∧
    (NewProversPool (Int.ofNat 3) = some (⟨3, []⟩ : ProversPool Nat) ∧
      addSeq (⟨3, []⟩ : ProversPool Nat) [4, 5, 6] = some ⟨3, [4, 5, 6]⟩ ∧
      getSeq (⟨3, [4, 5, 6]⟩ : ProversPool Nat) [4, 5, 6].length
        = some ([4, 5, 6], ⟨3, []⟩)) :=
  ⟨by decide, c7_fifo_order 3 [4, 5, 6] (by decide)⟩

/-- Witness for C8: a concrete three-step run on a capacity-2 pool keeps
the buffer within capacity and the capacity unchanged. -/
theorem c8_capacity_bound_witness :
    PoolSys.run (⟨⟨2, [4]⟩, []⟩ : PoolSys Nat) [.addOk 5, .getOk, .addOk 6]
      = some ⟨⟨2, [5, 6]⟩, [4]⟩ ∧
    (⟨⟨2, [4]⟩, []⟩ : PoolSys Nat).pool.pool.length ≤ (⟨⟨2, [4]⟩, []⟩ : PoolSys Nat).pool.cap ∧
    ((⟨⟨2, [5, 6]⟩, [4]⟩ : PoolSys Nat).pool.pool.length
        ≤ (⟨⟨2, [5, 6]⟩, [4]⟩ : PoolSys Nat).pool.cap ∧
      (⟨⟨2, [5, 6]⟩, [4]⟩ : PoolSys Nat).pool.cap = (⟨⟨2, [4]⟩, []⟩ : PoolSys Nat).pool.cap) :=
  ⟨by decide, by decide,
    c8_capacity_bound [.addOk 5, .getOk, .addOk 6] ⟨⟨2, [4]⟩, []⟩ ⟨⟨2, [5, 6]⟩, [4]⟩
      (by decide) (by decide)⟩

/-- Witness for C9: a concrete delivering `Get` returns a handle and a nil
error. -/
theorem c9_exclusive_result_witness :
    (⟨1, [7]⟩ : ProversPool Nat).Get false false = some ((some 7, none), ⟨1, []⟩) ∧
    (((none : Option GoError) = none ∧ ∃ h, (some 7 : Option Nat) = some h) ∨
      ((some 7 : Option Nat) = none ∧ ∃ e, (none : Option GoError) = some e)) :=
  ⟨by decide,
    c9_exclusive_result (⟨1, [7]⟩ : ProversPool Nat) false false (some 7) none ⟨1, []⟩
      (by decide)⟩

/-- Witness for C10: capacity -2 yields no pool, capacity 2 yields an
empty pool. -/
theorem c10_new_pool_witness :
    ((-2 : Int) < 0 ∧ (NewProversPool (-2) : Option (ProversPool Nat)) = none) ∧
    ((0 : Int) ≤ 2 ∧ (NewProversPool 2 : Option (ProversPool Nat)) = some ⟨(2 : Int).toNat, []⟩) :=
  ⟨⟨by decide, (c10_new_pool (-2)).1 (by decide)⟩,
   ⟨by decide, (c10_new_pool 2).2 (by decide)⟩⟩
